import Mathlib

/-!
Shallow embedding in Lean 4 of the cloudlinux7to8 / centos2almaconverter
leaf actions and (where the repository slice does not contain it) the
pipeline engine described by the specification.

File-system and service state is modelled explicitly; external commands
(systemctl, lsmod, dnf, ...) are modelled by their documented effect on
that state.  Python `int()` on a decimal string is modelled by
`String.toInt?`; fallible code returns `Except`.
-/

namespace Cl7to8

/-- Decimal value of a digit string (tail of Python `int()`); `none` when a
non-digit appears. -/
def digitsValAux : List Char → Nat → Option Nat
  | [], acc => some acc
  | c :: cs, acc =>
    if c.isDigit then digitsValAux cs (acc * 10 + (c.toNat - 48))
    else none

/-- Python `int(s)` for the decimal (possibly negative) strings these
programs feed it: `none` models a `ValueError`. -/
def pyInt (s : String) : Option Int :=
  match s.toList with
  | [] => none
  | '-' :: rest =>
    if rest.isEmpty then none
    else (digitsValAux rest 0).map (fun n => -(n : Int))
  | l => (digitsValAux l 0).map (fun n => (n : Int))

/-- Python `int(s)` evaluated where the surrounding code lets an exception
propagate. -/
def pyIntE (s : String) : Except String Int :=
  match pyInt s with
  | some n => .ok n
  | none => .error ("ValueError: invalid literal for int: " ++ s)

/-- Split a character list on a separator character; like Python
`s.split(sep)`, the empty text yields one empty field. -/
def splitCharList (sep : Char) : List Char → List (List Char)
  | [] => [[]]
  | c :: cs =>
    let r := splitCharList sep cs
    if c = sep then [] :: r
    else
      match r with
      | [] => [[c]]
      | w :: ws => (c :: w) :: ws

/-- Python `s.split(sep)` for a single-character separator (the only kind
these programs use). -/
def pySplitOnChar (s : String) (sep : Char) : List String :=
  (splitCharList sep s.toList).map String.mk

/-- Python `s.startswith(pre)`. -/
def pyStartsWith (s pre : String) : Bool :=
  pre.toList.isPrefixOf s.toList

/-! ## mariadb.py: `_is_version_larger` (claim C8) -/

/-- `MARIADB_VERSION_ON_ALMA` from mariadb.py. -/
def MARIADB_VERSION_ON_ALMA : String := "10.3.35"

/-- The component-wise loop of `_is_version_larger`: Python
`zip(left.split("."), right.split("."))` truncates to the shorter list,
then the first unequal pair of `int()` values decides. -/
def isVersionLargerGo : List String → List String → Bool
  | pl :: ls, pr :: rs =>
    if (pyInt pl).getD 0 > (pyInt pr).getD 0 then true
    else if (pyInt pr).getD 0 > (pyInt pl).getD 0 then false
    else isVersionLargerGo ls rs
  | _, _ => false

/-- `_is_version_larger(left, right)` from mariadb.py (on dot-separated
numeric version strings, where `int()` cannot raise). -/
def _is_version_larger (left right : String) : Bool :=
  isVersionLargerGo (pySplitOnChar left '.') (pySplitOnChar right '.')

/-- First non-zero numeric component of a version component list, 0 when
all components are zero. -/
def firstNonzero : List String → Int
  | [] => 0
  | p :: ps =>
    let v := (pyInt p).getD 0
    if v ≠ 0 then v else firstNonzero ps

/-- Modelled from the spec: the claim's reading of the comparison — strictly
numerically greater, a missing trailing component counting as zero. -/
def versionLargerSpec : List String → List String → Bool
  | [], rs => firstNonzero rs < 0
  | l :: ls, [] => 0 < firstNonzero (l :: ls)
  | l :: ls, r :: rs =>
    if (pyInt l).getD 0 > (pyInt r).getD 0 then true
    else if (pyInt r).getD 0 > (pyInt l).getD 0 then false
    else versionLargerSpec ls rs

/-- The claim's statement instantiated on strings. -/
def versionLargerSpecStr (left right : String) : Bool :=
  versionLargerSpec (pySplitOnChar left '.') (pySplitOnChar right '.')

/-- `AvoidMariadbDowngrade._is_required` from mariadb.py, with the two
probed environment facts (is MariaDB installed, its reported version)
passed in explicitly. -/
def avoidMariadbDowngradeIsRequired (mariadbInstalled : Bool) (mariadbVersion : String) : Bool :=
  mariadbInstalled && !(_is_version_larger MARIADB_VERSION_ON_ALMA mariadbVersion)

/-- `UpdateMariadbDatabase._is_required` from mariadb.py. -/
def updateMariadbDatabaseIsRequired (mariadbInstalled : Bool) (mariadbVersion : String) : Bool :=
  mariadbInstalled && _is_version_larger MARIADB_VERSION_ON_ALMA mariadbVersion

/-! ## Time estimates (claim C7) -/

/-- `AdoptKolabRepositories.estimate_prepare_time` from extensions.py. -/
def adoptKolabRepositoriesEstimatePrepareTime : Nat := 30

/-- `AdoptKolabRepositories.estimate_post_time` from extensions.py. -/
def adoptKolabRepositoriesEstimatePostTime : Nat := 2 * 60

/-- `PostgresDatabasesUpdate.estimate_post_time` from postgres.py. -/
def postgresDatabasesUpdateEstimatePostTime : Nat := 3 * 60

/-- `PostgresReinstallModernPackage.estimate_post_time` from postgres.py. -/
def postgresReinstallModernPackageEstimatePostTime : Nat := 3 * 60

/-- Modelled from the spec: the `ActiveAction` base class (in
`pleskdistup.common.action`, not part of the repository slice) gives
`estimate_prepare_time()` and `estimate_post_time()` the default value 0
seconds for an action that does not declare its own estimate. -/
def defaultEstimateTime : Nat := 0

/-! ## Python string helpers shared by several actions -/

/-- Fuel-indexed core of Python `str.replace`: replace non-overlapping
occurrences of `pat` left to right.  The fuel is the length of the scanned
text, which bounds the recursion. -/
def replaceFuel : Nat → List Char → List Char → List Char → List Char
  | 0, s, _, _ => s
  | fuel + 1, s, pat, rep =>
    match s with
    | [] => []
    | c :: cs =>
      if pat ≠ [] ∧ pat.isPrefixOf (c :: cs) then
        rep ++ replaceFuel fuel (List.drop pat.length (c :: cs)) pat rep
      else
        c :: replaceFuel fuel cs pat rep

/-- Python `s.replace(pat, rep)` (for the non-empty patterns the actions
use). -/
def pyStrReplace (s pat rep : String) : String :=
  String.mk (replaceFuel s.toList.length s.toList pat.toList rep.toList)

/-- Python `str.splitlines()` for `\n`-separated text: no entry for a
trailing newline and no entry at all for the empty string. -/
def pySplitlines (s : String) : List String :=
  if s = "" then []
  else if s.toList.getLast? = some '\n' then (pySplitOnChar s '\n').dropLast
  else pySplitOnChar s '\n'

/-- Accumulating core of Python `str.split()` with no argument: break the
text into maximal runs of non-whitespace characters. -/
def wordsAux : List Char → List Char → List (List Char)
  | [], acc => if acc.isEmpty then [] else [acc.reverse]
  | c :: cs, acc =>
    if c.isWhitespace then
      if acc.isEmpty then wordsAux cs [] else acc.reverse :: wordsAux cs []
    else wordsAux cs (c :: acc)

/-- Python `str.split()` with no argument: split on whitespace runs,
discarding empty fields. -/
def pySplitWhitespace (s : String) : List String :=
  (wordsAux s.toList []).map String.mk

/-- Python `line.find(c)`: index of the first occurrence, `-1` if absent. -/
def pyStrFind (s : String) (c : Char) : Int :=
  match s.toList.findIdx? (fun x => x = c) with
  | some i => (i : Int)
  | none => -1

/-- Drop the last `n` elements (helper for negative Python slice bounds). -/
def dropLastN (l : List α) (n : Nat) : List α :=
  l.take (l.length - n)

/-- Python `s[:i]` for the int produced by `find`: a non-negative `i` keeps
the first `i` characters, a negative `i` drops the last `-i`. -/
def pySliceTo (s : String) (i : Int) : String :=
  if 0 ≤ i then String.mk (s.toList.take i.toNat)
  else String.mk (dropLastN s.toList ((-i).toNat))

/-! ## common.py leaf-action state models (claims C1, C2, C6) -/

/-- `common.replace_string(path, original, replacement)` (helper module not
under src/): modelled from its name and call sites as replacing every
occurrence of the substring in each line of the file. -/
def replace_string (lines : List String) (original replacement : String) : List String :=
  lines.map (fun line => pyStrReplace line original replacement)

/-- Enabled/running status of a systemd service. -/
structure ServiceState where
  enabled : Bool
  running : Bool
deriving Repr, DecidableEq

/-- `systemctl stop`: the unit stops running. -/
def systemctlStop (s : ServiceState) : ServiceState := { s with running := false }

/-- `systemctl start`: the unit runs. -/
def systemctlStart (s : ServiceState) : ServiceState := { s with running := true }

/-- `systemctl disable`. -/
def systemctlDisable (s : ServiceState) : ServiceState := { s with enabled := false }

/-- `systemctl enable`. -/
def systemctlEnable (s : ServiceState) : ServiceState := { s with enabled := true }

/-- `FixNamedConfig._prepare_action` from common.py: the state is whether
`/etc/named-user-options.conf` exists (creating the symlink makes it
exist). -/
def fixNamedConfigPrepare (userOptionsExists : Bool) : Bool :=
  if !userOptionsExists then true else userOptionsExists

/-- `FixNamedConfig._post_action` from common.py. -/
def fixNamedConfigPost (userOptionsExists : Bool) : Bool :=
  if userOptionsExists then false else userOptionsExists

/-- `FixNamedConfig._revert_action` from common.py. -/
def fixNamedConfigRevert (userOptionsExists : Bool) : Bool :=
  if userOptionsExists then false else userOptionsExists

/-- `RuleSelinux._prepare_action` from common.py, acting on the lines of
`/etc/selinux/config`. -/
def ruleSelinuxPrepare (config : List String) : List String :=
  replace_string config "SELINUX=enforcing" "SELINUX=permissive"

/-- `RuleSelinux._post_action` from common.py. -/
def ruleSelinuxPost (config : List String) : List String :=
  replace_string config "SELINUX=permissive" "SELINUX=enforcing"

/-- `RuleSelinux._revert_action` from common.py. -/
def ruleSelinuxRevert (config : List String) : List String :=
  replace_string config "SELINUX=permissive" "SELINUX=enforcing"

/-- `FixSpamassassinConfig._prepare_action` from common.py: stop then
disable `spamassassin.service`. -/
def fixSpamassassinPrepare (s : ServiceState) : ServiceState :=
  systemctlDisable (systemctlStop s)

/-- `FixSpamassassinConfig._revert_action` from common.py: enable then
start `spamassassin.service`. -/
def fixSpamassassinRevert (s : ServiceState) : ServiceState :=
  systemctlStart (systemctlEnable s)

/-! ## DisableSuspiciousKernelModules (claim C6) -/

/-- The relevant result of invoking an external command: exit status and
captured standard output. -/
structure CmdResult where
  returncode : Int
  stdout : String
deriving Repr, DecidableEq

/-- `DisableSuspiciousKernelModules.suspicious_modules` from common.py. -/
def suspiciousModules : List String := ["pata_acpi", "btrfs", "floppy"]

/-- `DisableSuspiciousKernelModules._get_enabled_modules` from common.py:
run `lsmod` (via `subprocess.run`, whose exit status is never examined),
take each output line up to the first space and keep the names that are in
`lookup_modules`. -/
def getEnabledModules (lookupModules : List String) (lsmodResult : CmdResult) : List String :=
  ((pySplitlines lsmodResult.stdout).map
    (fun line => pySliceTo line (pyStrFind line ' '))).filter
    (fun moduleName => moduleName ∈ lookupModules)

/-- `DisableSuspiciousKernelModules._prepare_action` from common.py: append
a blacklist line per suspicious module to `/etc/modprobe.d/pataacpibl.conf`,
then `rmmod` every suspicious module that `lsmod` reported loaded;
`util.logged_check_call` raises when `rmmod` fails, `subprocess.run` never
raises for a failing `lsmod`.  Returns the new config lines on success. -/
def disableSuspiciousKernelModulesPrepare (config : List String)
    (lsmodResult : CmdResult) (rmmodSucceeds : String → Bool) :
    Except String (List String) :=
  let config2 := config ++ suspiciousModules.map (fun m => "blacklist " ++ m)
  (getEnabledModules suspiciousModules lsmodResult).foldlM
    (fun acc m =>
      if rmmodSucceeds m then Except.ok acc
      else Except.error ("rmmod " ++ m ++ " failed"))
    config2

/-! ## mariadb.py failure behaviour (claim C6) -/

/-- `AvoidMariadbDowngrade._prepare_action` from mariadb.py: raise when
`/etc/yum.repos.d/mariadb.repo` is absent; otherwise update the leapp
repository mapping (a config mutation outside this state). -/
def avoidMariadbDowngradePrepare (mariadbRepofileExists : Bool) : Except String Unit :=
  if !mariadbRepofileExists then
    Except.error "Mariadb installed from unknown repository. Please check the mariadb.repo file is present"
  else
    Except.ok ()

/-- `UpdateMariadbDatabase._post_action` from mariadb.py: `systemctl start
mariadb` then `mysql_upgrade`, both via `subprocess.check_call`, which
raises on a non-zero exit status. -/
def updateMariadbDatabasePost (startSucceeds upgradeSucceeds : Bool) : Except String Unit :=
  if !startSucceeds then Except.error "systemctl start mariadb failed"
  else if !upgradeSucceeds then Except.error "mysql_upgrade failed"
  else Except.ok ()

/-! ## PleskVersionIsActual (claim C9) -/

/-- The per-line body of `PleskVersionIsActual._do_check` from common.py:
on the first line starting with `Product version`, take the last
whitespace-separated word, split it into exactly four dot components
(`major, _, iter, _`), and pass only when `int(major) >= 18 and
int(iter) >= 43` (short-circuit: the third component is only parsed when
the first one is at least 18); then break, so later lines are ignored. -/
def pleskVersionLoop : List String → Except String Bool
  | [] => Except.ok false
  | line :: rest =>
    if pyStartsWith line "Product version" then
      match (pySplitWhitespace line).getLast? with
      | none => Except.error "IndexError: list index out of range"
      | some version =>
        match pySplitOnChar version '.' with
        | [major, _, it, _] => do
          let m ← pyIntE major
          if 18 ≤ m then do
            let i ← pyIntE it
            if 43 ≤ i then Except.ok true else Except.ok false
          else Except.ok false
        | _ => Except.error "ValueError: unpack"
    else pleskVersionLoop rest

/-- `PleskVersionIsActual._do_check` from common.py, as a function of the
`plesk version` standard output. -/
def pleskVersionIsActualDoCheck (versionStdout : String) : Except String Bool :=
  pleskVersionLoop (pySplitlines versionStdout)

/-! ## Distro checks (claim C10) -/

/-- `DistroIsCentos79._do_check` from common.py, as a function of the
`platform.linux_distribution()` name and version fields.  Unpacking
`distro[1].split(".")[:2]` into two variables raises `ValueError` when the
version has fewer than two dot components; `int()` is reached only as far
as Python's `and` short-circuits. -/
def distroIsCentos79DoCheck (distroName distroVersion : String) : Except String Bool :=
  match (pySplitOnChar distroVersion '.').take 2 with
  | [major, minor] =>
    if distroName = "CentOS Linux" then do
      let m ← pyIntE major
      if m = 7 then do
        let n ← pyIntE minor
        if n = 9 then Except.ok true else Except.ok false
      else Except.ok false
    else Except.ok false
  | _ => Except.error "ValueError: not enough values to unpack"

/-- `DistroIsAlmalinux8._do_check` from common.py: only the first dot
component is taken (`split` always yields at least one field, so no unpack
error), and `int()` is reached only when the distro name matches. -/
def distroIsAlmalinux8DoCheck (distroName distroVersion : String) : Except String Bool :=
  let major := ((pySplitOnChar distroVersion '.').headD "")
  if distroName = "AlmaLinux" then do
    let m ← pyIntE major
    if m = 8 then Except.ok true else Except.ok false
  else Except.ok false

/-! ## AssertPostgresLocaleMatchesSystemOne (claim C1) -/

/-- `systemctl reload-or-restart`: reloads or restarts a running unit and
starts a stopped one — afterwards the unit is running either way. -/
def systemctlReloadOrRestart (running : Bool) : Bool :=
  (fun _ => true) running

/-- `systemctl reload-or-try-restart`: reloads or restarts a running unit
but does nothing for a stopped one. -/
def systemctlReloadOrTryRestart (running : Bool) : Bool :=
  running

/-- The host state touched by `AssertPostgresLocaleMatchesSystemOne`:
the lines of `pg_hba.conf`, its backup copy, and whether the `postgresql`
service is running. -/
structure PgLocaleCheckState where
  pgHba : List String
  pgHbaBackup : Option (List String)
  postgresqlRunning : Bool
deriving Repr, DecidableEq

/-- The line `_do_check` pushes to the front of `pg_hba.conf`. -/
def pgTrustLine : String := "local template1 postgres trust #Added by Plesk"

/-- `AssertPostgresLocaleMatchesSystemOne._do_check` from
cloudlinux7to8/actions/postgres.py, on its success path.  The try block
backs up `pg_hba.conf` (`files.backup_file`, modelled as saving the
content), pushes a trust line to its front, reload-or-restarts
`postgresql`, and computes the boolean from the queried Postgres locales
and the system locales (Python sets, modelled by `List.dedup`); the
finally block restores the file from the backup and
reload-or-try-restarts the service.  Returns the boolean and the final
host state. -/
def assertPostgresLocaleDoCheck (s : PgLocaleCheckState)
    (pgLocales sysLocales : List String) : Bool × PgLocaleCheckState :=
  let s1 : PgLocaleCheckState := { s with pgHbaBackup := some s.pgHba }
  let s2 : PgLocaleCheckState := { s1 with pgHba := pgTrustLine :: s1.pgHba }
  let s3 : PgLocaleCheckState :=
    { s2 with postgresqlRunning := systemctlReloadOrRestart s2.postgresqlRunning }
  let result :=
    if pgLocales.dedup.length ≠ 1 then false
    else if sysLocales.dedup.length ≠ 1 then false
    else pgLocales.dedup = sysLocales.dedup
  let s4 : PgLocaleCheckState :=
    { s3 with pgHba := (s3.pgHbaBackup).getD s3.pgHba, pgHbaBackup := none }
  let s5 : PgLocaleCheckState :=
    { s4 with postgresqlRunning := systemctlReloadOrTryRestart s4.postgresqlRunning }
  (result, s5)

/-! ## PostgresReinstallModernPackage (claim C3) -/

/-- Create a file in a directory modelled as a list of entries (writing an
existing file leaves a single entry). -/
def createFile (v : Nat) (files : List Nat) : List Nat :=
  if v ∈ files then files else v :: files

/-- The host state touched by `PostgresReinstallModernPackage`: the numeric
data sets under the pgsql root (`_get_versions`), the `<major>.enabled`
flag files, and the enabled/running `postgresql-<major>` services. -/
structure PgReinstallState where
  versions : List Nat
  flags : List Nat
  enabled : List Nat
  running : List Nat
deriving Repr, DecidableEq

/-- The loop of `PostgresReinstallModernPackage._prepare_action` from
cloudlinux7to8/actions/postgres.py: for each major version whose
`postgresql-<major>` service is active, write the `<major>.enabled` flag
file, then stop and disable the service. -/
def pgReinstallPrepareLoop : List Nat → PgReinstallState → PgReinstallState
  | [], s => s
  | v :: vs, s =>
    if v ∈ s.running then
      pgReinstallPrepareLoop vs
        { s with
          flags := createFile v s.flags,
          running := s.running.erase v,
          enabled := s.enabled.erase v }
    else
      pgReinstallPrepareLoop vs s

/-- `PostgresReinstallModernPackage._prepare_action`: the initial
`leapp_configs.add_repositories_mapping` call mutates only leapp
configuration, outside this state; then the loop runs over
`_get_versions()`. -/
def pgReinstallPrepare (s : PgReinstallState) : PgReinstallState :=
  pgReinstallPrepareLoop s.versions s

/-- The flag-consuming loop shared by
`PostgresReinstallModernPackage._post_action` and `_revert_action`: for
each major version whose `<major>.enabled` flag file exists, enable and
start `postgresql-<major>` and delete the flag file.  Also returns, in
order, the major versions whose service was enabled and started. -/
def pgReinstallRestoreLoop : List Nat → PgReinstallState → PgReinstallState × List Nat
  | [], s => (s, [])
  | v :: vs, s =>
    if v ∈ s.flags then
      let s' : PgReinstallState :=
        { s with
          enabled := createFile v s.enabled,
          running := createFile v s.running,
          flags := s.flags.erase v }
      let rest := pgReinstallRestoreLoop vs s'
      (rest.1, v :: rest.2)
    else
      pgReinstallRestoreLoop vs s

/-- `PostgresReinstallModernPackage._post_action`: the dnf module/update/
install calls per version touch only the rpm package state, outside this
state; the service/flag effect is the restore loop over `_get_versions()`. -/
def pgReinstallPost (s : PgReinstallState) : PgReinstallState × List Nat :=
  pgReinstallRestoreLoop s.versions s

/-- `PostgresReinstallModernPackage._revert_action`: exactly the restore
loop over `_get_versions()`. -/
def pgReinstallRevert (s : PgReinstallState) : PgReinstallState × List Nat :=
  pgReinstallRestoreLoop s.versions s

/-! ## Pipeline Runner model (claims C4, C5)

The action pipeline engine itself is not part of the repository slice
(only leaf actions are), so it is modelled from the specification,
sections 3 and 4.2. -/

/-- Modelled from the spec: the per-action phase recorded in the Pipeline
Record (spec section 3). -/
inductive Phase where
  | pending
  | prepareDone
  | postDone
  | reverted
  | failed
deriving Repr, DecidableEq

/-- Modelled from the spec (section 4.2, resuming the post phase): walk the
record in list order; an action with `prepare_done` but not `post_done`
has `post()` executed and is recorded `post_done`, persisting after each;
actions already `post_done` (or in any other phase) are skipped.  The
first index argument is the list position of the head; returns the final
record and the 0-based positions whose `post()` was invoked, in
invocation order. -/
def postResumeAux : Nat → List Phase → List Phase × List Nat
  | _, [] => ([], [])
  | i, ph :: rest =>
    let r := postResumeAux (i + 1) rest
    if ph = Phase.prepareDone then (Phase.postDone :: r.1, i :: r.2)
    else (ph :: r.1, r.2)

/-- Modelled from the spec: the post-phase resumption pass over a loaded
Pipeline Record. -/
def postResume (record : List Phase) : List Phase × List Nat :=
  postResumeAux 0 record

/-- Modelled from the spec: the Pipeline Record persisted after the first
`j` post executions of a post-phase pass — the first `j` actions recorded
`prepare_done` are now `post_done`, everything after the kill point is
untouched. -/
def postPartial : Nat → List Phase → List Phase
  | _, [] => []
  | j, ph :: rest =>
    if ph = Phase.prepareDone then
      match j with
      | 0 => ph :: rest
      | j' + 1 => Phase.postDone :: postPartial j' rest
    else ph :: postPartial j rest

/-- Modelled from the spec (section 4.2, `Checking → Preparing`): walk the
record in list order; for an action still `pending`, evaluate
`is_required()` — if false record it `post_done` immediately without
executing anything, if true execute `prepare()` and record
`prepare_done` — persisting after each; actions with any recorded phase
are skipped.  Each record entry carries the action's `is_required()`
value.  Returns the final record and the positions whose `prepare()` was
invoked, in invocation order. -/
def prepareResumeAux : Nat → List (Bool × Phase) → List (Bool × Phase) × List Nat
  | _, [] => ([], [])
  | i, (req, ph) :: rest =>
    let r := prepareResumeAux (i + 1) rest
    if ph = Phase.pending then
      if req then ((req, Phase.prepareDone) :: r.1, i :: r.2)
      else ((req, Phase.postDone) :: r.1, r.2)
    else ((req, ph) :: r.1, r.2)

/-- Modelled from the spec: the prepare-phase pass over a loaded Pipeline
Record. -/
def prepareResume (record : List (Bool × Phase)) : List (Bool × Phase) × List Nat :=
  prepareResumeAux 0 record

/-- Modelled from the spec: the freshly created Pipeline Record for an
action list with the given `is_required()` values — every action pending. -/
def freshRecord (reqs : List Bool) : List (Bool × Phase) :=
  reqs.map (fun r => (r, Phase.pending))

/-- Modelled from the spec: the mark the prepare pass records for a
processed pending action — `prepare_done` if required, `post_done`
otherwise. -/
def prepareMark (req : Bool) : Phase :=
  if req then Phase.prepareDone else Phase.postDone

/-- Modelled from the spec: the Pipeline Record persisted after the first
`j` actions of a fresh prepare pass — those are marked, the rest still
pending. -/
def prepPartialFresh (j : Nat) (reqs : List Bool) : List (Bool × Phase) :=
  (reqs.take j).map (fun r => (r, prepareMark r)) ++ freshRecord (reqs.drop j)

/-- Modelled from the spec (section 4.2, `Checking → Preparing` with a
failure): process `n` fresh actions starting at position `i`; while
`prepare()` succeeds record `prepare_done`; on the first failure record
`failed` and abort forward progress, leaving the remaining actions
pending. -/
def prepareForward (prepareSucceeds : Nat → Bool) : Nat → Nat → List Phase
  | _, 0 => []
  | i, n + 1 =>
    if prepareSucceeds i then Phase.prepareDone :: prepareForward prepareSucceeds (i + 1) n
    else Phase.failed :: List.replicate n Phase.pending

/-- Modelled from the spec (section 4.2, revert path): iterate actions in
reverse of forward order; for each action whose recorded phase is
`prepare_done` or `post_done`, execute `revert()` and mark it `reverted`,
persisting after each; other actions are skipped.  Returns the final
record and the positions whose `revert()` was invoked, in invocation
order (reverse list order). -/
def revertRunAux : Nat → List Phase → List Phase × List Nat
  | _, [] => ([], [])
  | i, ph :: rest =>
    let r := revertRunAux (i + 1) rest
    if ph = Phase.prepareDone ∨ ph = Phase.postDone then
      (Phase.reverted :: r.1, r.2 ++ [i])
    else (ph :: r.1, r.2)

/-- Modelled from the spec: the revert pass over a Pipeline Record. -/
def revertRun (record : List Phase) : List Phase × List Nat :=
  revertRunAux 0 record

/-! ## Helper lemmas -/

theorem isVersionLargerGo_self : ∀ l : List String, isVersionLargerGo l l = false := by
  intro l
  induction l with
  | nil => rfl
  | cons p ps ih => simp [isVersionLargerGo, ih]

theorem isVersionLargerGo_asymm :
    ∀ l r : List String, isVersionLargerGo l r = true → isVersionLargerGo r l = false := by
  intro l
  induction l with
  | nil => intro r h; cases r <;> simp [isVersionLargerGo] at h
  | cons p ps ih =>
    intro r h
    cases r with
    | nil => simp [isVersionLargerGo] at h
    | cons q qs =>
      simp only [isVersionLargerGo] at h ⊢
      rcases lt_trichotomy ((pyInt p).getD 0) ((pyInt q).getD 0) with hlt | heq | hgt
      · rw [if_neg (by omega), if_pos (by omega)] at h
        cases h
      · rw [if_neg (by omega), if_neg (by omega)] at h ⊢
        exact ih qs h
      · rw [if_neg (by omega), if_pos (by omega)]

/-! ## Claim theorems -/

/-- Claim C7: every declared Active-action estimate is the stated constant
non-negative number of seconds — AdoptKolabRepositories: 30 for prepare and
120 for post; PostgresDatabasesUpdate and PostgresReinstallModernPackage:
180 for post — and an action without its own estimate reports the default
of 0. -/
theorem claim_C7_estimate_times :
    adoptKolabRepositoriesEstimatePrepareTime = 30
    ∧ adoptKolabRepositoriesEstimatePostTime = 120
    ∧ postgresDatabasesUpdateEstimatePostTime = 180
    ∧ postgresReinstallModernPackageEstimatePostTime = 180
    ∧ defaultEstimateTime = 0 :=
  ⟨rfl, rfl, rfl, rfl, rfl⟩

/-- Claim C9: evaluating `PleskVersionIsActual._do_check` at the failing
input — a `plesk version` output reporting product version 19.0.0.0, which
is later than 18.0.43 and should pass by the action's own description, yet
the check returns False because it demands the third version component to
be at least 43 for every major version; an actually passing input is shown
for contrast. -/
theorem claim_C9_plesk_version_check_at_failing_input :
    pleskVersionIsActualDoCheck "Product version 19.0.0.0\n" = Except.ok false
    ∧ pleskVersionIsActualDoCheck "Product version 18.0.43.2\n" = Except.ok true :=
  ⟨rfl, rfl⟩

/-- Claim C8 counterexample: `_is_version_larger` does not treat a missing
trailing component as zero — Python `zip` truncates, so "10.3.35" is not
reported larger than "10.3" although it is numerically greater (the
claim's reading, `versionLargerSpecStr`, decides it). -/
theorem claim_C8_counterexample :
    _is_version_larger "10.3.35" "10.3" = false
    ∧ versionLargerSpecStr "10.3.35" "10.3" = true := by
  exact ⟨by decide, by decide⟩

/-- Claim C8 (amended): `_is_version_larger` compares integer components
left to right over the common prefix only, ignoring extra trailing
components (so "10.3.35" versus "10.3" is not larger); it is irreflexive
and asymmetric, and with MariaDB installed exactly one of
`AvoidMariadbDowngrade.is_required()` and
`UpdateMariadbDatabase.is_required()` holds. -/
theorem claim_C8_amended_version_comparison :
    _is_version_larger "10.3.35" "10.3" = false
    ∧ (∀ a : String, _is_version_larger a a = false)
    ∧ (∀ a b : String, _is_version_larger a b = true → _is_version_larger b a = false)
    ∧ (∀ v : String,
        updateMariadbDatabaseIsRequired true v = !(avoidMariadbDowngradeIsRequired true v))
    ∧ (∀ v : String,
        avoidMariadbDowngradeIsRequired false v = false
        ∧ updateMariadbDatabaseIsRequired false v = false) := by
  refine ⟨by decide, ?_, ?_, ?_, ?_⟩
  · intro a
    exact isVersionLargerGo_self _
  · intro a b h
    exact isVersionLargerGo_asymm _ _ h
  · intro v
    simp [updateMariadbDatabaseIsRequired, avoidMariadbDowngradeIsRequired]
  · intro v
    simp [updateMariadbDatabaseIsRequired, avoidMariadbDowngradeIsRequired]

/-- Claim C8 witness: the amended theorem applied at concrete versions —
"10.3" is larger than "10.2.5" on the common prefix, so by asymmetry the
converse comparison is false. -/
theorem claim_C8_amended_version_comparison_witness :
    _is_version_larger "10.3" "10.2.5" = true
    ∧ _is_version_larger "10.2.5" "10.3" = false :=
  ⟨by decide, claim_C8_amended_version_comparison.2.2.1 "10.3" "10.2.5" (by decide)⟩

/-- Claim C10 counterexample: the distro checks are not total —
`DistroIsCentos79._do_check` raises a `ValueError` when the version string
has fewer than two dot components (the two-variable unpack fails even for
a non-matching distro name), and `DistroIsAlmalinux8._do_check` raises
when the first component is non-numeric and the name matches. -/
theorem claim_C10_counterexample :
    (distroIsCentos79DoCheck "Ubuntu" "7").isOk = false
    ∧ (distroIsAlmalinux8DoCheck "AlmaLinux" "8abc").isOk = false := by
  exact ⟨by decide, by decide⟩

/-- Claim C10 (amended): `DistroIsAlmalinux8.check()` returns False and
never raises for any non-matching distribution name;
`DistroIsCentos79.check()` raises `ValueError` whenever the version string
has fewer than two dot-separated components, even for non-matching names,
and returns False without raising for a non-matching name once the version
has at least two components; a compared non-numeric component can also
raise. -/
theorem claim_C10_amended_distro_checks_totality :
    (∀ name ver : String, name ≠ "AlmaLinux" →
      distroIsAlmalinux8DoCheck name ver = Except.ok false)
    ∧ (∀ name ver : String, (pySplitOnChar ver '.').length < 2 →
      (distroIsCentos79DoCheck name ver).isOk = false)
    ∧ (∀ name ver : String, name ≠ "CentOS Linux" →
      2 ≤ (pySplitOnChar ver '.').length →
      distroIsCentos79DoCheck name ver = Except.ok false) := by
  refine ⟨?_, ?_, ?_⟩
  · intro name ver h
    simp [distroIsAlmalinux8DoCheck, h]
  · intro name ver h
    rcases hsplit : pySplitOnChar ver '.' with _ | ⟨a, _ | ⟨b, bs⟩⟩
    · simp [distroIsCentos79DoCheck, hsplit]
      rfl
    · simp [distroIsCentos79DoCheck, hsplit]
      rfl
    · rw [hsplit] at h
      simp at h
      omega
  · intro name ver hname hlen
    rcases hsplit : pySplitOnChar ver '.' with _ | ⟨a, _ | ⟨b, bs⟩⟩
    · rw [hsplit] at hlen
      simp at hlen
    · rw [hsplit] at hlen
      simp at hlen
    · simp [distroIsCentos79DoCheck, hsplit, hname]

/-- Claim C10 witness: the amended theorem applied at concrete distro
tuples — AlmaLinux check on a CentOS host, CentOS 7.9 check on a version
with a single component, and CentOS 7.9 check on an AlmaLinux host. -/
theorem claim_C10_amended_distro_checks_totality_witness :
    distroIsAlmalinux8DoCheck "CentOS Linux" "7.9.2009" = Except.ok false
    ∧ (distroIsCentos79DoCheck "CentOS Linux" "7").isOk = false
    ∧ distroIsCentos79DoCheck "AlmaLinux" "8.7" = Except.ok false :=
  ⟨claim_C10_amended_distro_checks_totality.1 "CentOS Linux" "7.9.2009" (by decide),
   claim_C10_amended_distro_checks_totality.2.1 "CentOS Linux" "7" (by decide),
   claim_C10_amended_distro_checks_totality.2.2 "AlmaLinux" "8.7" (by decide) (by decide)⟩

/-- Claim C6 counterexample: `DisableSuspiciousKernelModules._prepare_action`
completes successfully when `lsmod` fails (exit status 1, no output) — the
exit status is never examined, the module list is simply empty, and the
blacklist file is still written — even if every `rmmod` call would fail. -/
theorem claim_C6_counterexample :
    disableSuspiciousKernelModulesPrepare [] ⟨1, ""⟩ (fun _ => false)
      = Except.ok ["blacklist pata_acpi", "blacklist btrfs", "blacklist floppy"] :=
  rfl

/-- Claim C6 (amended): `AvoidMariadbDowngrade.prepare()` raises when
`/etc/yum.repos.d/mariadb.repo` is absent and succeeds otherwise, and
`UpdateMariadbDatabase.post()` succeeds exactly when both of its underlying
commands do; but `DisableSuspiciousKernelModules.prepare()` never examines
lsmod's exit status — whenever lsmod produces no output (as a failing
lsmod does), prepare treats the loaded-module list as empty and completes
successfully. -/
theorem claim_C6_amended_error_propagation :
    (∀ (cfg : List String) (res : CmdResult) (rm : String → Bool), res.stdout = "" →
      disableSuspiciousKernelModulesPrepare cfg res rm
        = Except.ok (cfg ++ suspiciousModules.map (fun m => "blacklist " ++ m)))
    ∧ (avoidMariadbDowngradePrepare false).isOk = false
    ∧ avoidMariadbDowngradePrepare true = Except.ok ()
    ∧ (∀ st up : Bool, (updateMariadbDatabasePost st up).isOk = (st && up)) := by
  refine ⟨?_, by decide, rfl, ?_⟩
  · intro cfg res rm h
    simp [disableSuspiciousKernelModulesPrepare, getEnabledModules, pySplitlines, h]
    rfl
  · intro st up
    cases st <;> cases up <;> rfl

/-- Claim C6 witness: the amended theorem applied at a concrete host state —
lsmod failing with empty output, an existing modprobe config line, every
rmmod destined to fail — still a successful prepare. -/
theorem claim_C6_amended_error_propagation_witness :
    disableSuspiciousKernelModulesPrepare ["options foo"] ⟨1, ""⟩ (fun _ => true)
      = Except.ok (["options foo"] ++ suspiciousModules.map (fun m => "blacklist " ++ m)) :=
  claim_C6_amended_error_propagation.1 ["options foo"] ⟨1, ""⟩ (fun _ => true) rfl

/-- Claim C1 counterexample: `AssertPostgresLocaleMatchesSystemOne.check()`
does not leave every service status as it was — starting with the
`postgresql` service stopped, the check's `systemctl reload-or-restart`
starts it and the final `reload-or-try-restart` leaves it running, so the
post-check host state differs from the pre-check one. -/
theorem claim_C1_counterexample :
    (assertPostgresLocaleDoCheck ⟨["host all all ident"], none, false⟩
        ["C.UTF-8"] ["C.UTF-8"]).2
      ≠ ⟨["host all all ident"], none, false⟩
    ∧ (assertPostgresLocaleDoCheck ⟨["host all all ident"], none, false⟩
        ["C.UTF-8"] ["C.UTF-8"]).2.postgresqlRunning = true := by
  exact ⟨by decide, by decide⟩

/-- Claim C1 (amended): the check is not mutation-free — it temporarily
edits `pg_hba.conf` and restarts `postgresql` — but on return the file
contents are restored from the backup (and the backup removed); the
`postgresql` service, however, is always left running, even when it was
stopped before the call. -/
theorem claim_C1_amended_locale_check_restores_file_not_service :
    ∀ (s : PgLocaleCheckState) (pgLocales sysLocales : List String),
      (assertPostgresLocaleDoCheck s pgLocales sysLocales).2.pgHba = s.pgHba
      ∧ (assertPostgresLocaleDoCheck s pgLocales sysLocales).2.pgHbaBackup = none
      ∧ (assertPostgresLocaleDoCheck s pgLocales sysLocales).2.postgresqlRunning = true := by
  intro s pgLocales sysLocales
  refine ⟨rfl, rfl, rfl⟩

/-- Claim C2 counterexample: revert after a successful prepare does not
restore the pre-prepare state — with `/etc/named-user-options.conf`
present beforehand, `FixNamedConfig` ends with it absent; with
`SELINUX=permissive` as the original setting, `RuleSelinux` ends with
`SELINUX=enforcing`; with `spamassassin.service` disabled and stopped
beforehand, `FixSpamassassinConfig` ends with it enabled and running. -/
theorem claim_C2_counterexample :
    fixNamedConfigRevert (fixNamedConfigPrepare true) ≠ true
    ∧ ruleSelinuxRevert (ruleSelinuxPrepare ["SELINUX=permissive"]) ≠ ["SELINUX=permissive"]
    ∧ fixSpamassassinRevert (fixSpamassassinPrepare ⟨false, false⟩) ≠ ⟨false, false⟩ := by
  exact ⟨by decide, by decide, by decide⟩

/-- Claim C2 (amended): prepare-then-revert restores the original state
exactly when that state is the nominal one the actions are written for —
the named-user-options file absent, `SELINUX=enforcing`, spamassassin
enabled and running; in general revert forces that fixed outcome
regardless of what held before prepare: the file is always removed and
spamassassin is always enabled and started. -/
theorem claim_C2_amended_revert_restores_nominal_state :
    fixNamedConfigRevert (fixNamedConfigPrepare false) = false
    ∧ ruleSelinuxRevert (ruleSelinuxPrepare ["SELINUX=enforcing"]) = ["SELINUX=enforcing"]
    ∧ fixSpamassassinRevert (fixSpamassassinPrepare ⟨true, true⟩) = ⟨true, true⟩
    ∧ (∀ e : Bool, fixNamedConfigRevert (fixNamedConfigPrepare e) = false)
    ∧ (∀ s : ServiceState, fixSpamassassinRevert (fixSpamassassinPrepare s) = ⟨true, true⟩) := by
  refine ⟨by decide, by decide, by decide, ?_, ?_⟩
  · intro e
    cases e <;> rfl
  · intro s
    rfl

theorem mem_createFile (v w : Nat) (files : List Nat) :
    w ∈ createFile v files ↔ w = v ∨ w ∈ files := by
  by_cases h : v ∈ files
  · simp only [createFile, if_pos h]
    constructor
    · exact Or.inr
    · rintro (rfl | hw)
      · exact h
      · exact hw
  · simp [createFile, if_neg h]

theorem nodup_createFile (v : Nat) (files : List Nat) (h : files.Nodup) :
    (createFile v files).Nodup := by
  by_cases hv : v ∈ files
  · simpa [createFile, if_pos hv] using h
  · simpa [createFile, if_neg hv] using ⟨hv, h⟩

theorem pgPrepLoop_versions (vs : List Nat) :
    ∀ s : PgReinstallState, (pgReinstallPrepareLoop vs s).versions = s.versions := by
  induction vs with
  | nil => intro s; rfl
  | cons u us ih =>
    intro s
    by_cases hu : u ∈ s.running
    · simp only [pgReinstallPrepareLoop, if_pos hu]
      exact ih _
    · simp only [pgReinstallPrepareLoop, if_neg hu]
      exact ih _

theorem pgPrepLoop_flags (vs : List Nat) :
    ∀ s : PgReinstallState, ∀ v : Nat,
      v ∈ (pgReinstallPrepareLoop vs s).flags ↔ v ∈ s.flags ∨ (v ∈ vs ∧ v ∈ s.running) := by
  induction vs with
  | nil => intro s v; simp [pgReinstallPrepareLoop]
  | cons u us ih =>
    intro s v
    by_cases hu : u ∈ s.running
    · simp only [pgReinstallPrepareLoop, if_pos hu]
      rw [ih]
      by_cases hv : v = u
      · subst hv
        simp [mem_createFile, hu]
      · simp only [mem_createFile]
        rw [List.mem_erase_of_ne hv]
        simp [hv, List.mem_cons]
    · simp only [pgReinstallPrepareLoop, if_neg hu]
      rw [ih]
      by_cases hv : v = u
      · subst hv
        simp [hu]
      · simp [List.mem_cons, hv]

theorem pgPrepLoop_running (vs : List Nat) :
    ∀ s : PgReinstallState, s.running.Nodup → ∀ v : Nat,
      v ∈ (pgReinstallPrepareLoop vs s).running ↔ v ∈ s.running ∧ v ∉ vs := by
  induction vs with
  | nil => intro s _ v; simp [pgReinstallPrepareLoop]
  | cons u us ih =>
    intro s hnd v
    by_cases hu : u ∈ s.running
    · simp only [pgReinstallPrepareLoop, if_pos hu]
      rw [ih _ (hnd.erase u)]
      rw [hnd.mem_erase_iff]
      by_cases hv : v = u
      · subst hv
        simp
      · simp [hv, List.mem_cons]
    · simp only [pgReinstallPrepareLoop, if_neg hu]
      rw [ih _ hnd]
      by_cases hv : v = u
      · subst hv
        simp [hu]
      · simp [List.mem_cons, hv]

theorem pgPrepLoop_flags_nodup (vs : List Nat) :
    ∀ s : PgReinstallState, s.flags.Nodup → (pgReinstallPrepareLoop vs s).flags.Nodup := by
  induction vs with
  | nil => intro s h; exact h
  | cons u us ih =>
    intro s h
    by_cases hu : u ∈ s.running
    · simp only [pgReinstallPrepareLoop, if_pos hu]
      exact ih _ (nodup_createFile u s.flags h)
    · simp only [pgReinstallPrepareLoop, if_neg hu]
      exact ih _ h

theorem pgRestoreLoop_versions (vs : List Nat) :
    ∀ s : PgReinstallState, (pgReinstallRestoreLoop vs s).1.versions = s.versions := by
  induction vs with
  | nil => intro s; rfl
  | cons u us ih =>
    intro s
    by_cases hu : u ∈ s.flags
    · simp only [pgReinstallRestoreLoop, if_pos hu]
      exact ih _
    · simp only [pgReinstallRestoreLoop, if_neg hu]
      exact ih _

theorem pgRestoreLoop_trace (vs : List Nat) :
    ∀ s : PgReinstallState, vs.Nodup →
      (pgReinstallRestoreLoop vs s).2 = vs.filter (fun v => v ∈ s.flags) := by
  induction vs with
  | nil => intro s _; rfl
  | cons u us ih =>
    intro s hnd
    rcases List.nodup_cons.mp hnd with ⟨hus, hnd'⟩
    by_cases hu : u ∈ s.flags
    · simp only [pgReinstallRestoreLoop, if_pos hu]
      rw [List.filter_cons_of_pos (by simpa using hu)]
      congr 1
      rw [ih _ hnd']
      apply List.filter_congr
      intro v hv
      have hvu : v ≠ u := fun h => hus (h ▸ hv)
      simp only [decide_eq_decide]
      exact List.mem_erase_of_ne hvu
    · simp only [pgReinstallRestoreLoop, if_neg hu]
      rw [List.filter_cons_of_neg (by simpa using hu)]
      exact ih _ hnd'

theorem pgRestoreLoop_flags (vs : List Nat) :
    ∀ s : PgReinstallState, s.flags.Nodup → ∀ v : Nat,
      v ∈ (pgReinstallRestoreLoop vs s).1.flags ↔ v ∈ s.flags ∧ v ∉ vs := by
  induction vs with
  | nil => intro s _ v; simp [pgReinstallRestoreLoop]
  | cons u us ih =>
    intro s hnd v
    by_cases hu : u ∈ s.flags
    · simp only [pgReinstallRestoreLoop, if_pos hu]
      rw [ih _ (hnd.erase u)]
      rw [hnd.mem_erase_iff]
      by_cases hv : v = u
      · subst hv
        simp
      · simp [hv, List.mem_cons]
    · simp only [pgReinstallRestoreLoop, if_neg hu]
      rw [ih _ hnd]
      by_cases hv : v = u
      · subst hv
        simp [hu]
      · simp [List.mem_cons, hv]

theorem pgRestoreLoop_running (vs : List Nat) :
    ∀ s : PgReinstallState, ∀ v : Nat,
      v ∈ (pgReinstallRestoreLoop vs s).1.running
        ↔ v ∈ s.running ∨ (v ∈ vs ∧ v ∈ s.flags) := by
  induction vs with
  | nil => intro s v; simp [pgReinstallRestoreLoop]
  | cons u us ih =>
    intro s v
    by_cases hu : u ∈ s.flags
    · simp only [pgReinstallRestoreLoop, if_pos hu]
      rw [ih]
      by_cases hv : v = u
      · subst hv
        simp [mem_createFile, hu]
      · simp only [mem_createFile]
        rw [List.mem_erase_of_ne hv]
        simp [hv, List.mem_cons]
    · simp only [pgReinstallRestoreLoop, if_neg hu]
      rw [ih]
      by_cases hv : v = u
      · subst hv
        simp [hu]
      · simp [List.mem_cons, hv]

/-- Claim C3: the cross-phase protocol of `PostgresReinstallModernPackage`
is carried entirely by on-disk state — starting from a host with no stale
flag files, prepare() writes the `<major>.enabled` flag file exactly for
each PostgreSQL service that was active (and stops those services), and
post()/revert() — functions of the on-disk state alone — re-enable and
restart `postgresql-<major>`, then delete the flag file, exactly for the
majors whose flag file exists. -/
theorem claim_C3_flag_file_protocol (s : PgReinstallState)
    (hf : s.flags = []) (hrn : s.running.Nodup) (hvn : s.versions.Nodup) :
    (∀ v, v ∈ (pgReinstallPrepare s).flags ↔ v ∈ s.versions ∧ v ∈ s.running)
    ∧ (∀ v, v ∈ (pgReinstallPrepare s).running ↔ v ∈ s.running ∧ v ∉ s.versions)
    ∧ (pgReinstallPost (pgReinstallPrepare s)).2
        = s.versions.filter (fun v => v ∈ (pgReinstallPrepare s).flags)
    ∧ (pgReinstallRevert (pgReinstallPrepare s)).2
        = s.versions.filter (fun v => v ∈ (pgReinstallPrepare s).flags)
    ∧ (pgReinstallPost (pgReinstallPrepare s)).1.flags = []
    ∧ (∀ v, v ∈ (pgReinstallPost (pgReinstallPrepare s)).1.running
        ↔ v ∈ (pgReinstallPrepare s).running ∨ (v ∈ s.versions ∧ v ∈ (pgReinstallPrepare s).flags)) := by
  have hpv : (pgReinstallPrepare s).versions = s.versions := pgPrepLoop_versions s.versions s
  have hflags : ∀ v, v ∈ (pgReinstallPrepare s).flags ↔ v ∈ s.versions ∧ v ∈ s.running := by
    intro v
    rw [pgReinstallPrepare, pgPrepLoop_flags, hf]
    simp
  have hfnodup : (pgReinstallPrepare s).flags.Nodup := by
    rw [pgReinstallPrepare]
    exact pgPrepLoop_flags_nodup s.versions s (hf ▸ List.nodup_nil)
  refine ⟨hflags, ?_, ?_, ?_, ?_, ?_⟩
  · intro v
    rw [pgReinstallPrepare, pgPrepLoop_running s.versions s hrn]
  · rw [pgReinstallPost, hpv]
    exact pgRestoreLoop_trace s.versions _ hvn
  · rw [pgReinstallRevert, hpv]
    exact pgRestoreLoop_trace s.versions _ hvn
  · rw [pgReinstallPost, hpv]
    rw [List.eq_nil_iff_forall_not_mem]
    intro v hv
    rw [pgRestoreLoop_flags s.versions _ hfnodup v] at hv
    exact hv.2 ((hflags v).mp hv.1).1
  · intro v
    rw [pgReinstallPost, hpv]
    exact pgRestoreLoop_running s.versions _ v

/-- Claim C3 witness: the theorem applied to a concrete host — data
directories for majors 9 and 13, both services enabled but only 13
active — prepare flags exactly major 13, and post restores exactly major
13 and consumes the flag. -/
theorem claim_C3_flag_file_protocol_witness :
    (13 ∈ (pgReinstallPrepare ⟨[9, 13], [], [9, 13], [13]⟩).flags
      ↔ 13 ∈ [9, 13] ∧ 13 ∈ [13])
    ∧ (pgReinstallPost (pgReinstallPrepare ⟨[9, 13], [], [9, 13], [13]⟩)).2
        = [9, 13].filter (fun v => v ∈ (pgReinstallPrepare ⟨[9, 13], [], [9, 13], [13]⟩).flags)
    ∧ (pgReinstallPost (pgReinstallPrepare ⟨[9, 13], [], [9, 13], [13]⟩)).1.flags = [] := by
  have h := claim_C3_flag_file_protocol ⟨[9, 13], [], [9, 13], [13]⟩ rfl (by decide) (by decide)
  exact ⟨h.1 13, h.2.2.1, h.2.2.2.2.1⟩

theorem postResumeAux_le (l : List Phase) :
    ∀ i idx : Nat, idx ∈ (postResumeAux i l).2 → i ≤ idx := by
  induction l with
  | nil => intro i idx h; simp [postResumeAux] at h
  | cons ph rest ih =>
    intro i idx h
    by_cases hph : ph = Phase.prepareDone
    · simp only [postResumeAux, if_pos hph] at h
      rcases List.mem_cons.mp h with rfl | h'
      · exact le_refl idx
      · exact Nat.le_of_succ_le (ih (i + 1) idx h')
    · simp only [postResumeAux, if_neg hph] at h
      exact Nat.le_of_succ_le (ih (i + 1) idx h)

theorem postResumeAux_skip (l : List Phase) :
    ∀ (i k : Nat) (ph : Phase), l.get? k = some ph → ph ≠ Phase.prepareDone →
      i + k ∉ (postResumeAux i l).2 := by
  induction l with
  | nil => intro i k ph h _; simp at h
  | cons q rest ih =>
    intro i k ph h hne
    cases k with
    | zero =>
      simp only [List.get?] at h
      injection h with h
      subst h
      simp only [postResumeAux, if_neg hne]
      intro hmem
      have := postResumeAux_le rest (i + 1) (i + 0) hmem
      omega
    | succ k' =>
      simp only [List.get?] at h
      by_cases hq : q = Phase.prepareDone
      · simp only [postResumeAux, if_pos hq]
        intro hmem
        rcases List.mem_cons.mp hmem with heq | h'
        · omega
        · have h2 := ih (i + 1) k' ph h hne
          have : i + (k' + 1) = (i + 1) + k' := by omega
          rw [this] at h'
          exact h2 h'
      · simp only [postResumeAux, if_neg hq]
        intro h'
        have h2 := ih (i + 1) k' ph h hne
        have : i + (k' + 1) = (i + 1) + k' := by omega
        rw [this] at h'
        exact h2 h'

theorem postResumeAux_nodup (l : List Phase) :
    ∀ i : Nat, ((postResumeAux i l).2).Nodup := by
  induction l with
  | nil => intro i; simp [postResumeAux]
  | cons ph rest ih =>
    intro i
    by_cases hph : ph = Phase.prepareDone
    · simp only [postResumeAux, if_pos hph]
      refine List.nodup_cons.mpr ⟨?_, ih (i + 1)⟩
      intro hmem
      have := postResumeAux_le rest (i + 1) i hmem
      omega
    · simp only [postResumeAux, if_neg hph]
      exact ih (i + 1)

theorem postResumeAux_partial (l : List Phase) :
    ∀ i j : Nat,
      postResumeAux i (postPartial j l) = ((postResumeAux i l).1, (postResumeAux i l).2.drop j) := by
  induction l with
  | nil => intro i j; simp [postResumeAux, postPartial]
  | cons ph rest ih =>
    intro i j
    by_cases hph : ph = Phase.prepareDone
    · subst hph
      cases j with
      | zero =>
        simp only [postPartial, if_pos rfl]
        simp [postResumeAux]
      | succ j' =>
        simp only [postPartial, if_pos rfl]
        have hne : Phase.postDone ≠ Phase.prepareDone := by decide
        simp only [postResumeAux, if_neg hne, if_pos rfl]
        rw [ih (i + 1) j']
        simp
    · simp only [postPartial, if_neg hph]
      simp only [postResumeAux, if_neg hph]
      rw [ih (i + 1) j]

theorem prepareResumeAux_le (l : List (Bool × Phase)) :
    ∀ i idx : Nat, idx ∈ (prepareResumeAux i l).2 → i ≤ idx := by
  induction l with
  | nil => intro i idx h; simp [prepareResumeAux] at h
  | cons e rest ih =>
    intro i idx h
    rcases e with ⟨req, ph⟩
    by_cases hph : ph = Phase.pending
    · cases req
      · simp only [prepareResumeAux, if_pos hph, Bool.false_eq_true, if_neg] at h
        exact Nat.le_of_succ_le (ih (i + 1) idx h)
      · simp only [prepareResumeAux, if_pos hph, if_pos rfl] at h
        rcases List.mem_cons.mp h with rfl | h'
        · exact le_refl idx
        · exact Nat.le_of_succ_le (ih (i + 1) idx h')
    · simp only [prepareResumeAux, if_neg hph] at h
      exact Nat.le_of_succ_le (ih (i + 1) idx h)

theorem prepareResumeAux_skip (l : List (Bool × Phase)) :
    ∀ (i k : Nat) (req : Bool) (ph : Phase),
      l.get? k = some (req, ph) → ph ≠ Phase.pending →
      i + k ∉ (prepareResumeAux i l).2 := by
  induction l with
  | nil => intro i k req ph h _; simp at h
  | cons e rest ih =>
    intro i k req ph h hne
    cases k with
    | zero =>
      simp only [List.get?] at h
      injection h with h
      subst h
      simp only [prepareResumeAux, if_neg hne]
      intro hmem
      have := prepareResumeAux_le rest (i + 1) (i + 0) hmem
      omega
    | succ k' =>
      simp only [List.get?] at h
      rcases e with ⟨q, qph⟩
      have harith : i + (k' + 1) = (i + 1) + k' := by omega
      by_cases hq : qph = Phase.pending
      · cases q
        · simp only [prepareResumeAux, if_pos hq, Bool.false_eq_true, if_neg]
          intro h'
          rw [harith] at h'
          exact ih (i + 1) k' req ph h hne h'
        · simp only [prepareResumeAux, if_pos hq, if_pos rfl]
          intro hmem
          rcases List.mem_cons.mp hmem with heq | h'
          · omega
          · rw [harith] at h'
            exact ih (i + 1) k' req ph h hne h'
      · simp only [prepareResumeAux, if_neg hq]
        intro h'
        rw [harith] at h'
        exact ih (i + 1) k' req ph h hne h'

theorem prepareResumeAux_append (l1 l2 : List (Bool × Phase)) :
    ∀ i : Nat,
      prepareResumeAux i (l1 ++ l2)
        = ((prepareResumeAux i l1).1 ++ (prepareResumeAux (i + l1.length) l2).1,
           (prepareResumeAux i l1).2 ++ (prepareResumeAux (i + l1.length) l2).2) := by
  induction l1 with
  | nil => intro i; simp [prepareResumeAux]
  | cons e rest ih =>
    intro i
    rcases e with ⟨req, ph⟩
    have harith : i + (rest.length + 1) = (i + 1) + rest.length := by omega
    by_cases hph : ph = Phase.pending
    · cases req <;>
        simp [prepareResumeAux, hph, harith, ih (i + 1)]
    · simp [prepareResumeAux, hph, harith, ih (i + 1)]

theorem prepareResumeAux_nonpending (l : List (Bool × Phase)) :
    ∀ i : Nat, (∀ e ∈ l, e.2 ≠ Phase.pending) → prepareResumeAux i l = (l, []) := by
  induction l with
  | nil => intro i _; rfl
  | cons e rest ih =>
    intro i h
    rcases e with ⟨req, ph⟩
    have hph : ph ≠ Phase.pending := h (req, ph) (List.mem_cons_self _ _)
    simp only [prepareResumeAux, if_neg hph]
    rw [ih (i + 1) (fun x hx => h x (List.mem_cons_of_mem _ hx))]

theorem prepareResumeAux_fresh_record (reqs : List Bool) :
    ∀ i : Nat,
      (prepareResumeAux i (freshRecord reqs)).1 = reqs.map (fun r => (r, prepareMark r)) := by
  induction reqs with
  | nil => intro i; rfl
  | cons r rs ih =>
    intro i
    cases r
    · simp only [freshRecord, List.map_cons, prepareResumeAux, if_pos rfl, Bool.false_eq_true,
        if_neg]
      rw [← freshRecord]
      rw [ih (i + 1)]
      rfl
    · simp only [freshRecord, List.map_cons, prepareResumeAux, if_pos rfl]
      rw [← freshRecord]
      rw [ih (i + 1)]
      rfl

theorem prepareResumeAux_filter_ge (l : List (Bool × Phase)) (i : Nat) :
    ((prepareResumeAux i l).2).filter (fun x => decide (i ≤ x)) = (prepareResumeAux i l).2 := by
  apply List.filter_eq_self.mpr
  intro x hx
  simpa using prepareResumeAux_le l i x hx

theorem prepareResumeAux_fresh_drop (reqs : List Bool) :
    ∀ i j : Nat,
      (prepareResumeAux (i + j) (freshRecord (reqs.drop j))).2
        = ((prepareResumeAux i (freshRecord reqs)).2).filter (fun x => decide (i + j ≤ x)) := by
  induction reqs with
  | nil => intro i j; simp [freshRecord, prepareResumeAux]
  | cons r rs ih =>
    intro i j
    cases j with
    | zero =>
      simp only [List.drop_zero, Nat.add_zero]
      exact (prepareResumeAux_filter_ge _ i).symm
    | succ j' =>
      have harith : i + (j' + 1) = (i + 1) + j' := by omega
      have hcond : ¬ ((i + 1) + j' ≤ i) := by omega
      rw [List.drop_succ_cons, harith, ih (i + 1) j']
      cases r
      · simp [freshRecord, prepareResumeAux]
      · simp [freshRecord, prepareResumeAux, List.filter_cons, hcond]

/-- Claim C4: resumption is idempotent — in a post-phase pass, an action
recorded `post_done` is never invoked again and no action's `post()` runs
twice; resuming from the record persisted after any `j` completed posts
yields the same final record and exactly the remaining invocations; in a
prepare-phase pass, an action with any recorded phase is skipped, and
resuming a fresh run from the record persisted after its first `j`
actions re-invokes `prepare()` only for positions not yet persisted,
reaching the same final record. -/
theorem claim_C4_idempotent_resumption :
    (∀ (record : List Phase) (idx : Nat),
      record.get? idx = some Phase.postDone → idx ∉ (postResume record).2)
    ∧ (∀ record : List Phase, ((postResume record).2).Nodup)
    ∧ (∀ (record : List Phase) (j : Nat),
        postResume (postPartial j record) = ((postResume record).1, (postResume record).2.drop j))
    ∧ (∀ (record : List (Bool × Phase)) (idx : Nat) (req : Bool) (ph : Phase),
        record.get? idx = some (req, ph) → ph ≠ Phase.pending →
        idx ∉ (prepareResume record).2)
    ∧ (∀ (reqs : List Bool) (j : Nat), j ≤ reqs.length →
        (prepareResume (prepPartialFresh j reqs)).2
          = ((prepareResume (freshRecord reqs)).2).filter (fun x => decide (j ≤ x))
        ∧ (prepareResume (prepPartialFresh j reqs)).1 = (prepareResume (freshRecord reqs)).1) := by
  refine ⟨?_, ?_, ?_, ?_, ?_⟩
  · intro record idx h
    have := postResumeAux_skip record 0 idx Phase.postDone h (by decide)
    simpa using this
  · intro record
    exact postResumeAux_nodup record 0
  · intro record j
    exact postResumeAux_partial record 0 j
  · intro record idx req ph h hne
    have := prepareResumeAux_skip record 0 idx req ph h hne
    simpa using this
  · intro reqs j hj
    have hnp : ∀ e ∈ (reqs.take j).map (fun r => (r, prepareMark r)), e.2 ≠ Phase.pending := by
      intro e he
      rcases List.mem_map.mp he with ⟨r, _, rfl⟩
      cases r <;> simp [prepareMark]
    have hpre := prepareResumeAux_nonpending ((reqs.take j).map (fun r => (r, prepareMark r))) 0 hnp
    have hlen : ((reqs.take j).map (fun r => (r, prepareMark r))).length = j := by
      simp [List.length_take, Nat.min_eq_left hj]
    have happ := prepareResumeAux_append ((reqs.take j).map (fun r => (r, prepareMark r)))
      (freshRecord (reqs.drop j)) 0
    have hdrop := prepareResumeAux_fresh_drop reqs 0 j
    simp only [Nat.zero_add] at hdrop
    constructor
    · rw [prepareResume, prepPartialFresh, happ, hpre, hlen]
      simp only [List.nil_append, Nat.zero_add]
      rw [hdrop]
      rfl
    · rw [prepareResume, prepPartialFresh, happ, hpre, hlen]
      simp only [List.nil_append, Nat.zero_add]
      rw [prepareResume, prepareResumeAux_fresh_record reqs 0]
      rw [prepareResumeAux_fresh_record (reqs.drop j) j]
      rw [← List.map_append, List.take_append_drop]

/-- Claim C4 witness: the theorem applied at a concrete record — in
`[post_done, prepare_done]` position 0 is not re-invoked, and a fresh
two-action prepare run killed after one persisted save resumes with
exactly the second invocation and the same final record. -/
theorem claim_C4_idempotent_resumption_witness :
    (0 ∉ (postResume [Phase.postDone, Phase.prepareDone]).2)
    ∧ (prepareResume (prepPartialFresh 1 [true, true])).2
        = ((prepareResume (freshRecord [true, true])).2).filter (fun x => decide (1 ≤ x))
    ∧ (prepareResume (prepPartialFresh 1 [true, true])).1
        = (prepareResume (freshRecord [true, true])).1 := by
  refine ⟨claim_C4_idempotent_resumption.1 [Phase.postDone, Phase.prepareDone] 0 rfl, ?_, ?_⟩
  · exact (claim_C4_idempotent_resumption.2.2.2.2 [true, true] 1 (by decide)).1
  · exact (claim_C4_idempotent_resumption.2.2.2.2 [true, true] 1 (by decide)).2

theorem revertRunAux_replicate_pending :
    ∀ (b i : Nat),
      revertRunAux i (List.replicate b Phase.pending) = (List.replicate b Phase.pending, []) := by
  intro b
  induction b with
  | zero => intro i; rfl
  | succ m ih =>
    intro i
    simp only [List.replicate_succ, revertRunAux, ih (i + 1)]
    simp

theorem prepareForward_fail :
    ∀ n i k : Nat, i ≤ k → k < i + n →
      prepareForward (fun x => decide (x ≠ k)) i n
        = List.replicate (k - i) Phase.prepareDone
            ++ Phase.failed :: List.replicate (n - (k - i) - 1) Phase.pending := by
  intro n
  induction n with
  | zero => intro i k h1 h2; omega
  | succ m ih =>
    intro i k h1 h2
    by_cases hik : i = k
    · subst hik
      simp [prepareForward]
    · have h3 : i + 1 ≤ k := by omega
      have h4 : k < (i + 1) + m := by omega
      simp only [prepareForward]
      rw [if_pos (by simpa using hik)]
      rw [ih (i + 1) k h3 h4]
      rw [show k - i = (k - (i + 1)) + 1 from by omega]
      rw [show m + 1 - ((k - (i + 1)) + 1) - 1 = m - (k - (i + 1)) - 1 from by omega]
      rw [List.replicate_succ, List.cons_append]

theorem range_succ_map_add (a i : Nat) :
    (List.range (a + 1)).map (fun x => x + i) = i :: (List.range a).map (fun x => x + (i + 1)) := by
  rw [List.range_succ_eq_map, List.map_cons, List.map_map]
  refine congrArg₂ _ (by omega) ?_
  congr 1
  funext x
  simp [Function.comp]
  omega

theorem revertRunAux_prepared_append :
    ∀ (a i : Nat) (l : List Phase),
      revertRunAux i (List.replicate a Phase.prepareDone ++ l)
        = (List.replicate a Phase.reverted ++ (revertRunAux (i + a) l).1,
           (revertRunAux (i + a) l).2 ++ ((List.range a).map (fun x => x + i)).reverse) := by
  intro a
  induction a with
  | zero => intro i l; simp
  | succ m ih =>
    intro i l
    simp only [List.replicate_succ, List.cons_append, revertRunAux, List.append_eq]
    rw [ih (i + 1) l]
    rw [if_pos (Or.inl trivial)]
    have harith : i + 1 + m = i + (m + 1) := by omega
    rw [harith]
    refine congrArg₂ _ rfl ?_
    rw [range_succ_map_add m i, List.reverse_cons, List.append_assoc]

/-- Claim C5: when `prepare()` of the action at 0-based position `k` fails
in a fresh run of `n` actions, the revert pass invokes `revert()` exactly
on positions `k-1, ..., 0` — the actions before `k`, in reverse list
order — never on action `k` itself or on any action still pending, and
the final record shows those actions reverted, action `k` failed, and the
rest untouched. -/
theorem claim_C5_revert_exact_reverse_order (n k : Nat) (hk : k < n) :
    (revertRun (prepareForward (fun i => decide (i ≠ k)) 0 n)).2 = (List.range k).reverse
    ∧ (∀ idx ∈ (revertRun (prepareForward (fun i => decide (i ≠ k)) 0 n)).2, idx < k)
    ∧ (revertRun (prepareForward (fun i => decide (i ≠ k)) 0 n)).1
        = List.replicate k Phase.reverted
            ++ Phase.failed :: List.replicate (n - k - 1) Phase.pending := by
  have hform := prepareForward_fail n 0 k (Nat.zero_le k) (by omega)
  simp only [Nat.sub_zero] at hform
  have hfail : revertRunAux (0 + k) (Phase.failed :: List.replicate (n - k - 1) Phase.pending)
      = (Phase.failed :: List.replicate (n - k - 1) Phase.pending, []) := by
    simp only [revertRunAux]
    rw [revertRunAux_replicate_pending]
    simp
  refine ⟨?_, ?_, ?_⟩
  · rw [revertRun, hform, revertRunAux_prepared_append, hfail]
    simp
  · intro idx h
    rw [revertRun, hform, revertRunAux_prepared_append, hfail] at h
    simp at h
    omega
  · rw [revertRun, hform, revertRunAux_prepared_append, hfail]

/-- Claim C5 witness: the theorem applied at a run of five actions whose
third action's prepare fails — revert runs exactly on positions 1 then 0. -/
theorem claim_C5_revert_exact_reverse_order_witness :
    (revertRun (prepareForward (fun i => decide (i ≠ 2)) 0 5)).2 = [1, 0] :=
  ((claim_C5_revert_exact_reverse_order 5 2 (by decide)).1).trans (by decide)

end Cl7to8
